import Mathlib

/-!
Verification of the MCP LLM client repository (`mcp_http_server.py`,
`mcp_llm_client.py`, `mcp_http_client.py`).

The Python code is shallowly embedded:
* JSON values (tool arguments, input schemas) become the inductive `JValue`;
* the FastMCP tool implementations `greet` and `calculate` become pure Lean
  functions, with Python `raise` becoming `Except.error`;
* `MCPLLMClient.process_query` becomes a pure function parameterised by the
  two external collaborators (the OpenAI completion service and the MCP
  session's `call_tool`), which returns both the final result and a trace of
  the external calls it performed, in order.
-/

namespace MCP

/-- JSON values, as produced by `json.loads` / consumed by `json.dumps`.
Numbers are modelled as integers (the examples in this repository only use
integral arguments; nothing below depends on the numeric domain). -/
inductive JValue where
  | jnull : JValue
  | jbool : Bool → JValue
  | jnum : Int → JValue
  | jstr : String → JValue
  | jarr : List JValue → JValue
  | jobj : List (String × JValue) → JValue

mutual

/-- Serialisation, `json.dumps`, on a JSON value (minimal separators, double-quoted strings;
the exact whitespace conventions do not matter to any property below, only
that serialisation is a fixed deterministic function). -/
def JValue.dumps : JValue → String
  | .jnull => "null"
  | .jbool b => if b then "true" else "false"
  | .jnum n => toString n
  | .jstr s => "\"" ++ s ++ "\""
  | .jarr xs => "[" ++ JValue.dumpsArr xs ++ "]"
  | .jobj kvs => "\x7b" ++ JValue.dumpsObj kvs ++ "\x7d"

/-- Comma-separated serialisation of a JSON array's elements. -/
def JValue.dumpsArr : List JValue → String
  | [] => ""
  | [v] => JValue.dumps v
  | v :: vs => JValue.dumps v ++ ", " ++ JValue.dumpsArr vs

/-- Comma-separated serialisation of a JSON object's key/value pairs. -/
def JValue.dumpsObj : List (String × JValue) → String
  | [] => ""
  | [kv] => "\"" ++ kv.1 ++ "\": " ++ JValue.dumps kv.2
  | kv :: kvs => "\"" ++ kv.1 ++ "\": " ++ JValue.dumps kv.2 ++ ", " ++ JValue.dumpsObj kvs

end

/-! ## Server tools (`src/mcp_http_server.py`) -/

/-- First `greet` tool definition (`mcp_http_server.py` lines 22-27):
returns `f"Hello, {name}!"`. -/
def greetFirst (name : String) : String :=
  "Hello, " ++ name ++ "!"

/-- Second `greet` tool definition (`mcp_http_server.py` lines 29-33), the
duplicate registration that shadows the first: returns `f"Hello, {name}!"`. -/
def greetSecond (name : String) : String :=
  "Hello, " ++ name ++ "!"

/-- The `calculate` tool (`mcp_http_server.py` lines 36-60).  Python floats
are modelled as rationals; `raise ValueError(msg)` becomes `Except.error msg`. -/
def calculate (operation : String) (a b : ℚ) : Except String ℚ :=
  if operation = "add" then .ok (a + b)
  else if operation = "subtract" then .ok (a - b)
  else if operation = "multiply" then .ok (a * b)
  else if operation = "divide" then
    if b = 0 then .error "Cannot divide by zero"
    else .ok (a / b)
  else .error ("Unknown operation: " ++ operation)

/-! ## Client data model (`src/mcp_llm_client.py`) -/

/-- An MCP tool descriptor as returned by `session.list_tools()`:
`name`, `description`, `inputSchema`. -/
structure ToolDescriptor where
  name : String
  description : String
  inputSchema : JValue

/-- The `function` part of an OpenAI function spec built by the catalog
conversion loop (`mcp_llm_client.py` lines 86-95). -/
structure FunctionSpec where
  name : String
  description : String
  parameters : JValue

/-- One entry of the `tools=` argument to the completion service:
`{"type": "function", "function": {...}}`. -/
structure OpenAITool where
  type : String
  function : MCP.FunctionSpec

/-- The body of the catalog conversion loop (`mcp_llm_client.py` lines 87-95):
what gets appended to `openai_tools` for one MCP tool descriptor. -/
def toOpenAITool (tool : ToolDescriptor) : OpenAITool :=
  { type := "function"
    function :=
      { name := tool.name
        description := tool.description
        parameters := tool.inputSchema } }

/-- The `function` field of a tool call inside the assistant response
(`tool_call.function`): a name and the arguments.  The OpenAI API transmits
the arguments as a JSON string which the client parses with `json.loads`
(line 116); the embedding carries the parsed value. -/
structure ToolCallFunction where
  name : String
  arguments : JValue

/-- One tool call requested by the assistant response
(`response.choices[0].message.tool_calls[i]`). -/
structure ToolCall where
  id : String
  function : ToolCallFunction

/-- The assistant message returned by a chat completion
(`response.choices[0].message`): optional text content and the requested tool
calls.  Python's `message.tool_calls` is `None` or a list; both falsy cases
collapse to the empty list here. -/
structure ChatMessage where
  content : Option String
  tool_calls : List ToolCall

/-- The serialized function record placed in the synthetic assistant message
that echoes a tool call (`mcp_llm_client.py` lines 134-137): here `arguments`
is a string, `json.dumps(tool_args)`. -/
structure EchoFunction where
  name : String
  arguments : String
deriving DecidableEq, Repr

/-- One element of the `"tool_calls"` list of the synthetic assistant message
(`mcp_llm_client.py` lines 131-138). -/
structure EchoToolCall where
  id : String
  type : String
  function : MCP.EchoFunction
deriving DecidableEq, Repr

/-- A transcript message, one Python dict appended to `messages`.  Fields not
present in a given dict are `none`. -/
structure Message where
  role : String
  content : Option String
  tool_calls : Option (List EchoToolCall)
  tool_call_id : Option String
deriving DecidableEq, Repr

/-- The fixed system preamble (`mcp_llm_client.py` lines 75-78). -/
def systemMessage : Message :=
  { role := "system"
    content := some "You are a helpful assistant that can use tools to help users accomplish tasks."
    tool_calls := none
    tool_call_id := none }

/-- The user message seeded from the query (`mcp_llm_client.py` lines 79-82). -/
def userMessage (query : String) : Message :=
  { role := "user", content := some query, tool_calls := none, tool_call_id := none }

/-- The synthetic assistant message re-describing one tool call, appended at
`mcp_llm_client.py` lines 127-140. -/
def echoMessage (tc : ToolCall) : Message :=
  { role := "assistant"
    content := none
    tool_calls := some [
      { id := tc.id
        type := "function"
        function :=
          { name := tc.function.name
            arguments := JValue.dumps tc.function.arguments } }]
    tool_call_id := none }

/-- The tool-role message carrying a stringified tool result, appended at
`mcp_llm_client.py` lines 141-145. -/
def toolMessage (id content : String) : Message :=
  { role := "tool", content := some content, tool_calls := none, tool_call_id := some id }

/-- Client state relevant to `process_query`: whether `self.session` is set,
the `OPENAI_API_KEY` environment variable (`none` when unset), and
`self.available_tools` as fetched at connect time. -/
structure ClientState where
  session : Bool
  apiKey : Option String
  available_tools : List ToolDescriptor

/-- The two external collaborators of `process_query`, supplied as oracles:
the completion service (first call with tools and `tool_choice="auto"`,
final call without tools) and the MCP session's `call_tool`.  `callTool`
returns the stringified `result.content` on success and the raised error on
failure. -/
structure Oracle where
  complete1 : List Message → List OpenAITool → ChatMessage
  complete2 : List Message → ChatMessage
  callTool : String → JValue → Except String String

/-- One external call performed by `process_query`, recorded in order:
a chat-completion request (with the transcript passed and the tool specs
attached, `none` when no `tools=` argument was given), or one tool
execution. -/
inductive Event where
  | completionCall : List Message → Option (List OpenAITool) → Event
  | toolExec : String → JValue → Event

/-- The record appended to the local `tool_calls` accumulator list
(`mcp_llm_client.py` lines 123-124): name, parsed args, result content. -/
structure ToolRecord where
  name : String
  args : JValue
  result : String

/-- The `for tool_call in message.tool_calls` loop body
(`mcp_llm_client.py` lines 114-145), iterated over the requested tool calls
in order.  For each call: execute it via the session (a failure there
propagates, aborting the rest), record it in the `tool_calls` accumulator,
and append the synthetic assistant echo followed by the tool-role result
message.  Returns the events performed, and on success the grown transcript
together with the accumulator. -/
def execToolCalls (o : Oracle) :
    List ToolCall → List Message → List ToolRecord →
    List Event × Except String (List Message × List ToolRecord)
  | [], messages, recs => ([], .ok (messages, recs))
  | tc :: rest, messages, recs =>
    let ev := Event.toolExec tc.function.name tc.function.arguments
    match o.callTool tc.function.name tc.function.arguments with
    | .error e => ([ev], .error e)
    | .ok content =>
      let messages' := messages ++ [echoMessage tc, toolMessage tc.id content]
      let recs' := recs ++ [⟨tc.function.name, tc.function.arguments, content⟩]
      let (evs, out) := execToolCalls o rest messages' recs'
      (ev :: evs, out)

/-- The message `process_query` returns when `OPENAI_API_KEY` is unset or
empty (`mcp_llm_client.py` line 72). -/
def apiKeyErrorText : String :=
  "Error: OPENAI_API_KEY environment variable not set. Please create a .env file with your API key."

/-- The aggregation `"\n".join(text for text in final_text if text)`
(`mcp_llm_client.py` line 157). -/
def joinNonEmpty (final_text : List String) : String :=
  String.intercalate "\n" (final_text.filter (fun t => t ≠ ""))

/-- The method `MCPLLMClient.process_query` (`mcp_llm_client.py` lines 66-157), returning
the trace of external calls together with the result (`Except.error` models a
raised exception propagating to the caller).

Control flow mirrors the source: the not-connected and missing-key guards,
the seeded transcript, the catalog conversion, the first completion call, the
tool-call loop, and the `if tool_calls:` guard before the final completion
call. -/
def process_query (st : ClientState) (o : Oracle) (query : String) :
    List Event × Except String String :=
  if st.session = false then ([], .error "Not connected to server")
  else if (st.apiKey.getD "") = "" then ([], .ok apiKeyErrorText)
  else
    let messages := [systemMessage, userMessage query]
    let openai_tools := st.available_tools.map toOpenAITool
    let ev1 := Event.completionCall messages (some openai_tools)
    let message := o.complete1 messages openai_tools
    let final_text := [message.content.getD ""]
    if message.tool_calls.isEmpty then
      ([ev1], .ok (joinNonEmpty final_text))
    else
      match execToolCalls o message.tool_calls messages [] with
      | (evs, .error e) => (ev1 :: evs, .error e)
      | (evs, .ok (messages', tool_calls)) =>
        if tool_calls.isEmpty then
          (ev1 :: evs, .ok (joinNonEmpty final_text))
        else
          let ev2 := Event.completionCall messages' none
          let final_message := o.complete2 messages'
          (ev1 :: evs ++ [ev2], .ok (joinNonEmpty (final_text ++ [final_message.content.getD ""])))

/-! ## Trace observers -/

/-- The completion-service requests in a trace: transcript passed and tool
specs attached (`none` when the request carried no `tools=`). -/
def completionsOf (trace : List Event) : List (List Message × Option (List OpenAITool)) :=
  trace.filterMap fun e =>
    match e with
    | .completionCall msgs tools => some (msgs, tools)
    | .toolExec _ _ => none

/-- The tool executions in a trace, in order: tool name and arguments. -/
def toolExecsOf (trace : List Event) : List (String × JValue) :=
  trace.filterMap fun e =>
    match e with
    | .completionCall _ _ => none
    | .toolExec name args => some (name, args)

/-- The ids carried by the `tool_calls` list of an assistant message
(no ids for other roles or absent lists). -/
def assistantIds (m : Message) : List String :=
  if m.role = "assistant" then (m.tool_calls.getD []).map (fun tc => tc.id) else []

/-- The transcript invariant: every tool-role message's `tool_call_id`
matches a tool-call id carried by an assistant message strictly earlier in
the transcript.  `seen` accumulates the ids exposed so far. -/
def toolIdsOkFrom (seen : List String) : List Message → Bool
  | [] => true
  | m :: rest =>
    (if m.role = "tool" then decide ((m.tool_call_id.getD "") ∈ seen) else true)
      && toolIdsOkFrom (seen ++ assistantIds m) rest

/-- The transcript invariant, checked from an empty id set. -/
def toolIdsOk (msgs : List Message) : Bool :=
  toolIdsOkFrom [] msgs

/-! ## Canonical descriptions of the tool-execution loop -/

/-- The trace event produced by executing one requested tool call. -/
def toolExecEvent (tc : ToolCall) : Event :=
  Event.toolExec tc.function.name tc.function.arguments

/-- The content returned by the session for one tool call, when the call
succeeds (unused default on failure). -/
def toolResultContent (o : Oracle) (tc : ToolCall) : String :=
  match o.callTool tc.function.name tc.function.arguments with
  | .ok content => content
  | .error _ => ""

/-- The two transcript messages appended for one successfully executed tool
call: the assistant echo followed by the tool-role result. -/
def toolPairMessages (o : Oracle) (tc : ToolCall) : List Message :=
  [echoMessage tc, toolMessage tc.id (toolResultContent o tc)]

/-- The accumulator record produced for one successfully executed tool call. -/
def toolRecordOf (o : Oracle) (tc : ToolCall) : ToolRecord :=
  ⟨tc.function.name, tc.function.arguments, toolResultContent o tc⟩

/-- Joining a one-element `final_text` returns the single text verbatim
(the empty string maps to the empty string). -/
theorem joinNonEmpty_singleton (t : String) : joinNonEmpty [t] = t := by
  unfold joinNonEmpty
  by_cases h : t = "" <;>
    simp [h, String.intercalate, String.intercalate.go]

/-- When every requested call succeeds, the loop executes the calls in order,
appends the echo/result pair for each, and extends the accumulator
accordingly. -/
theorem execToolCalls_all_ok (o : Oracle) :
    ∀ (calls : List ToolCall) (messages : List Message) (recs : List ToolRecord),
      (∀ tc ∈ calls, (o.callTool tc.function.name tc.function.arguments).isOk = true) →
      execToolCalls o calls messages recs =
        (calls.map toolExecEvent,
         .ok (messages ++ calls.flatMap (toolPairMessages o),
              recs ++ calls.map (toolRecordOf o)))
  | [], messages, recs, _ => by simp [execToolCalls]
  | tc :: rest, messages, recs, h => by
    have htc : (o.callTool tc.function.name tc.function.arguments).isOk = true :=
      h tc (List.mem_cons_self _ _)
    obtain ⟨content, hcontent⟩ :
        ∃ c, o.callTool tc.function.name tc.function.arguments = .ok c := by
      cases hcall : o.callTool tc.function.name tc.function.arguments with
      | ok c => exact ⟨c, rfl⟩
      | error e => rw [hcall] at htc; simp [Except.isOk, Except.toBool] at htc
    have hrest := execToolCalls_all_ok o rest
      (messages ++ [echoMessage tc, toolMessage tc.id content])
      (recs ++ [⟨tc.function.name, tc.function.arguments, content⟩])
      (fun x hx => h x (List.mem_cons_of_mem _ hx))
    have hres : toolResultContent o tc = content := by
      unfold toolResultContent
      rw [hcontent]
    simp only [execToolCalls, hcontent, hrest]
    simp [toolPairMessages, toolRecordOf, toolExecEvent, hres]

/-- When the calls before `bad` all succeed and `bad` fails with `e`, the
loop performs exactly the executions up to and including `bad`, then
propagates the error. -/
theorem execToolCalls_fails_at (o : Oracle) :
    ∀ (pre : List ToolCall) (bad : ToolCall) (post : List ToolCall)
      (messages : List Message) (recs : List ToolRecord) (e : String),
      (∀ tc ∈ pre, (o.callTool tc.function.name tc.function.arguments).isOk = true) →
      o.callTool bad.function.name bad.function.arguments = .error e →
      execToolCalls o (pre ++ bad :: post) messages recs =
        (pre.map toolExecEvent ++ [toolExecEvent bad], .error e)
  | [], bad, post, messages, recs, e, _, hbad => by
    simp [execToolCalls, hbad, toolExecEvent]
  | tc :: pre, bad, post, messages, recs, e, hpre, hbad => by
    have htc : (o.callTool tc.function.name tc.function.arguments).isOk = true :=
      hpre tc (List.mem_cons_self _ _)
    obtain ⟨content, hcontent⟩ :
        ∃ c, o.callTool tc.function.name tc.function.arguments = .ok c := by
      cases hcall : o.callTool tc.function.name tc.function.arguments with
      | ok c => exact ⟨c, rfl⟩
      | error err => rw [hcall] at htc; simp [Except.isOk, Except.toBool] at htc
    have hrest := execToolCalls_fails_at o pre bad post
      (messages ++ [echoMessage tc, toolMessage tc.id content])
      (recs ++ [⟨tc.function.name, tc.function.arguments, content⟩]) e
      (fun x hx => hpre x (List.mem_cons_of_mem _ hx))
      hbad
    simp only [List.cons_append, execToolCalls, hcontent, List.append_eq]
    rw [hrest]
    simp [toolExecEvent]

/-- Whatever the outcome, the events of the loop are a prefix of the
executions of the full requested list, in order. -/
theorem execToolCalls_events_isPrefix (o : Oracle) :
    ∀ (calls : List ToolCall) (messages : List Message) (recs : List ToolRecord),
      (execToolCalls o calls messages recs).1 <+: calls.map toolExecEvent
  | [], messages, recs => by simp [execToolCalls]
  | tc :: rest, messages, recs => by
    cases hcall : o.callTool tc.function.name tc.function.arguments with
    | error e =>
      simp only [execToolCalls, hcall, List.map_cons]
      exact ⟨(rest.map toolExecEvent), by simp [toolExecEvent]⟩
    | ok content =>
      have hrest := execToolCalls_events_isPrefix o rest
        (messages ++ [echoMessage tc, toolMessage tc.id content])
        (recs ++ [⟨tc.function.name, tc.function.arguments, content⟩])
      simp only [execToolCalls, hcall, List.map_cons]
      exact (List.prefix_cons_inj _).mpr hrest

/-- If the loop returns normally, its events are exactly the executions of
the requested list, in order, and every call succeeded. -/
theorem execToolCalls_ok_inv (o : Oracle) :
    ∀ (calls : List ToolCall) (messages : List Message) (recs : List ToolRecord)
      (evs : List Event) (out : List Message × List ToolRecord),
      execToolCalls o calls messages recs = (evs, .ok out) →
      evs = calls.map toolExecEvent ∧
        (∀ tc ∈ calls, (o.callTool tc.function.name tc.function.arguments).isOk = true)
  | [], messages, recs, evs, out, h => by
    simp [execToolCalls] at h
    simp [h.1.symm]
  | tc :: rest, messages, recs, evs, out, h => by
    cases hcall : o.callTool tc.function.name tc.function.arguments with
    | error e => simp [execToolCalls, hcall] at h
    | ok content =>
      simp only [execToolCalls, hcall] at h
      have hevs := congrArg Prod.fst h
      have hout := congrArg Prod.snd h
      simp only at hevs hout
      have hrec := execToolCalls_ok_inv o rest
        (messages ++ [echoMessage tc, toolMessage tc.id content])
        (recs ++ [⟨tc.function.name, tc.function.arguments, content⟩])
        (execToolCalls o rest (messages ++ [echoMessage tc, toolMessage tc.id content])
          (recs ++ [⟨tc.function.name, tc.function.arguments, content⟩])).1
        out (by rw [← hout])
      refine ⟨?_, ?_⟩
      · rw [← hevs, List.map_cons, hrec.1]
        simp [toolExecEvent]
      · intro x hx
        rcases List.mem_cons.mp hx with hx | hx
        · subst hx
          simp [hcall, Except.isOk, Except.toBool]
        · exact hrec.2 x hx


/-! ## Trace observer lemmas -/

/-- The observer `completionsOf` distributes over trace concatenation. -/
theorem completionsOf_append (xs ys : List Event) :
    completionsOf (xs ++ ys) = completionsOf xs ++ completionsOf ys := by
  unfold completionsOf
  exact List.filterMap_append xs ys _

/-- The observer `toolExecsOf` distributes over trace concatenation. -/
theorem toolExecsOf_append (xs ys : List Event) :
    toolExecsOf (xs ++ ys) = toolExecsOf xs ++ toolExecsOf ys := by
  unfold toolExecsOf
  exact List.filterMap_append xs ys _

/-- A run of tool-execution events contains no completion requests. -/
theorem completionsOf_toolExecEvents (calls : List ToolCall) :
    completionsOf (calls.map toolExecEvent) = [] := by
  induction calls with
  | nil => rfl
  | cons tc rest ih => simp [completionsOf, toolExecEvent, List.filterMap_cons]

/-- The tool executions of a run of tool-execution events are precisely the
underlying calls' names and arguments, in order. -/
theorem toolExecsOf_toolExecEvents (calls : List ToolCall) :
    toolExecsOf (calls.map toolExecEvent) =
      calls.map (fun tc => (tc.function.name, tc.function.arguments)) := by
  induction calls with
  | nil => rfl
  | cons tc rest ih => simpa [toolExecsOf, toolExecEvent, List.filterMap_cons] using ih

/-! ## Characterisations of `process_query` -/

/-- With no session handle, `process_query` raises at once: no external call
is performed. -/
theorem process_query_not_connected (st : ClientState) (o : Oracle) (query : String)
    (hs : st.session = false) :
    process_query st o query = ([], .error "Not connected to server") := by
  unfold process_query
  rw [hs]
  simp

/-- With a session but no (or an empty) `OPENAI_API_KEY`, `process_query`
returns the explanatory text at once: no external call is performed. -/
theorem process_query_no_key (st : ClientState) (o : Oracle) (query : String)
    (hs : st.session = true) (hk : st.apiKey.getD "" = "") :
    process_query st o query = ([], .ok apiKeyErrorText) := by
  unfold process_query
  rw [hs, hk]
  simp

/-- When the first completion carries no tool calls, the whole run is a
single completion request, and the result is the assistant text verbatim. -/
theorem process_query_no_tools (st : ClientState) (o : Oracle) (query : String)
    (hs : st.session = true) (hk : st.apiKey.getD "" ≠ "")
    (hm : (o.complete1 [systemMessage, userMessage query]
            (st.available_tools.map toOpenAITool)).tool_calls = []) :
    process_query st o query =
      ([Event.completionCall [systemMessage, userMessage query]
          (some (st.available_tools.map toOpenAITool))],
       .ok ((o.complete1 [systemMessage, userMessage query]
              (st.available_tools.map toOpenAITool)).content.getD "")) := by
  unfold process_query
  rw [hs]
  simp only [Bool.true_eq_false, if_false, if_neg hk]
  rw [hm]
  simp [joinNonEmpty_singleton]

/-- When the first completion carries tool calls and they all succeed, the
run is: the first completion request, the executions in order, and the final
completion request on the transcript grown by one echo/result pair per
call. -/
theorem process_query_with_tools_ok (st : ClientState) (o : Oracle) (query : String)
    (calls : List ToolCall)
    (hs : st.session = true) (hk : st.apiKey.getD "" ≠ "")
    (hm : (o.complete1 [systemMessage, userMessage query]
            (st.available_tools.map toOpenAITool)).tool_calls = calls)
    (hne : calls ≠ [])
    (hall : ∀ tc ∈ calls, (o.callTool tc.function.name tc.function.arguments).isOk = true) :
    process_query st o query =
      (Event.completionCall [systemMessage, userMessage query]
          (some (st.available_tools.map toOpenAITool))
        :: calls.map toolExecEvent
        ++ [Event.completionCall
              ([systemMessage, userMessage query] ++ calls.flatMap (toolPairMessages o)) none],
       .ok (joinNonEmpty
        [(o.complete1 [systemMessage, userMessage query]
            (st.available_tools.map toOpenAITool)).content.getD "",
         (o.complete2 ([systemMessage, userMessage query]
            ++ calls.flatMap (toolPairMessages o))).content.getD ""])) := by
  unfold process_query
  rw [hs]
  simp only [Bool.true_eq_false, if_false, if_neg hk]
  rw [hm, execToolCalls_all_ok o calls _ [] hall]
  have hne2 : calls.isEmpty = false := by
    cases calls with
    | nil => exact absurd rfl hne
    | cons a l => rfl
  have hne3 : (calls.map (toolRecordOf o)).isEmpty = false := by
    cases calls with
    | nil => exact absurd rfl hne
    | cons a l => rfl
  simp [hne2, hne3]

/-- When a requested tool call fails (after any run of successful ones), the
error propagates: the trace holds the first completion request and the
executions up to and including the failing one, and no final completion
request is made. -/
theorem process_query_with_tools_err (st : ClientState) (o : Oracle) (query : String)
    (pre : List ToolCall) (bad : ToolCall) (post : List ToolCall) (e : String)
    (hs : st.session = true) (hk : st.apiKey.getD "" ≠ "")
    (hm : (o.complete1 [systemMessage, userMessage query]
            (st.available_tools.map toOpenAITool)).tool_calls = pre ++ bad :: post)
    (hpre : ∀ tc ∈ pre, (o.callTool tc.function.name tc.function.arguments).isOk = true)
    (hbad : o.callTool bad.function.name bad.function.arguments = .error e) :
    process_query st o query =
      (Event.completionCall [systemMessage, userMessage query]
          (some (st.available_tools.map toOpenAITool))
        :: (pre.map toolExecEvent ++ [toolExecEvent bad]),
       .error e) := by
  unfold process_query
  rw [hs]
  simp only [Bool.true_eq_false, if_false, if_neg hk]
  rw [hm, execToolCalls_fails_at o pre bad post _ [] e hpre hbad]
  simp


/-- When the tool-execution loop raises (with whatever events it performed),
`process_query` propagates the error after the first completion request and
performs no further external call. -/
theorem process_query_err_raw (st : ClientState) (o : Oracle) (query : String)
    (evs : List Event) (e : String)
    (hs : st.session = true) (hk : st.apiKey.getD "" ≠ "")
    (hne : (o.complete1 [systemMessage, userMessage query]
             (st.available_tools.map toOpenAITool)).tool_calls ≠ [])
    (heq : execToolCalls o
             ((o.complete1 [systemMessage, userMessage query]
               (st.available_tools.map toOpenAITool)).tool_calls)
             [systemMessage, userMessage query] [] = (evs, .error e)) :
    process_query st o query =
      (Event.completionCall [systemMessage, userMessage query]
          (some (st.available_tools.map toOpenAITool)) :: evs,
       .error e) := by
  unfold process_query
  rw [hs]
  simp only [Bool.true_eq_false, if_false, if_neg hk]
  have hne2 : ((o.complete1 [systemMessage, userMessage query]
      (st.available_tools.map toOpenAITool)).tool_calls).isEmpty = false := by
    cases hc : (o.complete1 [systemMessage, userMessage query]
        (st.available_tools.map toOpenAITool)).tool_calls with
    | nil => exact absurd hc hne
    | cons a l => rfl
  rw [heq]
  simp [hne2]

/-- Inversion for runs past the guards: a normal return means either no tool
call was requested (one completion request, nothing else) or every requested
call succeeded and the run has the canonical two-completion shape. -/
theorem process_query_ok_inv (st : ClientState) (o : Oracle) (query : String)
    (trace : List Event) (r : String)
    (hs : st.session = true) (hk : st.apiKey.getD "" ≠ "")
    (h : process_query st o query = (trace, .ok r)) :
    ((o.complete1 [systemMessage, userMessage query]
        (st.available_tools.map toOpenAITool)).tool_calls = [] ∧
      trace = [Event.completionCall [systemMessage, userMessage query]
        (some (st.available_tools.map toOpenAITool))]) ∨
    ((o.complete1 [systemMessage, userMessage query]
        (st.available_tools.map toOpenAITool)).tool_calls ≠ [] ∧
      (∀ tc ∈ (o.complete1 [systemMessage, userMessage query]
          (st.available_tools.map toOpenAITool)).tool_calls,
        (o.callTool tc.function.name tc.function.arguments).isOk = true) ∧
      trace = Event.completionCall [systemMessage, userMessage query]
          (some (st.available_tools.map toOpenAITool))
        :: (o.complete1 [systemMessage, userMessage query]
            (st.available_tools.map toOpenAITool)).tool_calls.map toolExecEvent
        ++ [Event.completionCall
              ([systemMessage, userMessage query]
                ++ (o.complete1 [systemMessage, userMessage query]
                    (st.available_tools.map toOpenAITool)).tool_calls.flatMap
                  (toolPairMessages o)) none]) := by
  by_cases hmt : (o.complete1 [systemMessage, userMessage query]
      (st.available_tools.map toOpenAITool)).tool_calls = []
  · left
    refine ⟨hmt, ?_⟩
    rw [process_query_no_tools st o query hs hk hmt] at h
    have h1 := congrArg Prod.fst h
    simp only at h1
    exact h1.symm
  · right
    refine ⟨hmt, ?_⟩
    rcases heq : execToolCalls o
        ((o.complete1 [systemMessage, userMessage query]
          (st.available_tools.map toOpenAITool)).tool_calls)
        [systemMessage, userMessage query] [] with ⟨evs, out⟩
    cases out with
    | error e =>
      rw [process_query_err_raw st o query evs e hs hk hmt heq] at h
      have h2 := congrArg Prod.snd h
      simp only at h2
      exact absurd h2.symm (by simp)
    | ok mr =>
      have hall := (execToolCalls_ok_inv o _ _ _ evs mr heq).2
      refine ⟨hall, ?_⟩
      rw [process_query_with_tools_ok st o query _ hs hk rfl hmt hall] at h
      have h1 := congrArg Prod.fst h
      simp only at h1
      exact h1.symm

/-- Inversion without guard hypotheses: every normal return's trace is empty,
a single completion request carrying tool specs, or a completion request
carrying tool specs followed by one run of tool executions and one final
completion request carrying no tool specs. -/
theorem process_query_ok_shapes (st : ClientState) (o : Oracle) (query : String)
    (trace : List Event) (r : String)
    (h : process_query st o query = (trace, .ok r)) :
    trace = [] ∨
    (∃ msgs ts, trace = [Event.completionCall msgs (some ts)]) ∨
    (∃ msgs ts calls m2, calls ≠ [] ∧
      trace = Event.completionCall msgs (some ts)
        :: (calls : List ToolCall).map toolExecEvent
        ++ [Event.completionCall m2 none]) := by
  cases hs : st.session with
  | false =>
    rw [process_query_not_connected st o query hs] at h
    have h2 := congrArg Prod.snd h
    simp only at h2
    exact absurd h2.symm (by simp)
  | true =>
    by_cases hk : st.apiKey.getD "" = ""
    · rw [process_query_no_key st o query hs hk] at h
      have h1 := congrArg Prod.fst h
      simp only at h1
      exact Or.inl h1.symm
    · rcases process_query_ok_inv st o query trace r hs hk h with ⟨_, htr⟩ | ⟨hne, _, htr⟩
      · exact Or.inr (Or.inl ⟨_, _, htr⟩)
      · exact Or.inr (Or.inr ⟨_, _, _, _, hne, htr⟩)

/-! ## The transcript id invariant -/

/-- The invariant check distributes over transcript concatenation: the suffix
is checked with the ids exposed by the whole first part. -/
theorem toolIdsOkFrom_append (xs : List Message) :
    ∀ (seen : List String) (ys : List Message),
      toolIdsOkFrom seen (xs ++ ys) =
        (toolIdsOkFrom seen xs && toolIdsOkFrom (seen ++ xs.flatMap assistantIds) ys) := by
  induction xs with
  | nil => intro seen ys; simp [toolIdsOkFrom]
  | cons m rest ih =>
    intro seen ys
    simp only [List.cons_append, toolIdsOkFrom, List.append_eq, ih, List.flatMap_cons,
      Bool.and_assoc, List.append_assoc]

/-- The invariant is closed under taking transcript prefixes. -/
theorem toolIdsOkFrom_take (msgs : List Message) :
    ∀ (seen : List String) (n : ℕ), toolIdsOkFrom seen msgs = true →
      toolIdsOkFrom seen (msgs.take n) = true := by
  induction msgs with
  | nil => intro seen n _; simp [toolIdsOkFrom]
  | cons m rest ih =>
    intro seen n h
    cases n with
    | zero => simp [toolIdsOkFrom]
    | succ k =>
      simp only [toolIdsOkFrom, Bool.and_eq_true] at h
      simp only [List.take_succ_cons, toolIdsOkFrom, Bool.and_eq_true]
      exact ⟨h.1, ih _ k h.2⟩

/-- A transcript with no tool-role message satisfies the invariant under any
exposed id set. -/
theorem toolIdsOkFrom_no_tool_role (msgs : List Message) :
    ∀ (seen : List String), (∀ m ∈ msgs, m.role ≠ "tool") →
      toolIdsOkFrom seen msgs = true := by
  induction msgs with
  | nil => intro seen _; rfl
  | cons m rest ih =>
    intro seen h
    simp only [toolIdsOkFrom, Bool.and_eq_true]
    refine ⟨?_, ih _ (fun x hx => h x (List.mem_cons_of_mem _ hx))⟩
    rw [if_neg (h m (List.mem_cons_self _ _))]

/-- The echo/result message pairs appended by the tool-execution loop satisfy
the invariant under any exposed id set: each pair's echo exposes exactly the
id its result message cites. -/
theorem toolIdsOkFrom_toolPairs (o : Oracle) :
    ∀ (calls : List ToolCall) (seen : List String),
      toolIdsOkFrom seen (calls.flatMap (toolPairMessages o)) = true
  | [], seen => rfl
  | tc :: rest, seen => by
    have ih := toolIdsOkFrom_toolPairs o rest
      ((seen ++ assistantIds (echoMessage tc)) ++ assistantIds (toolMessage tc.id (toolResultContent o tc)))
    simp only [List.flatMap_cons, toolPairMessages, List.cons_append, List.nil_append,
      toolIdsOkFrom, Bool.and_eq_true]
    refine ⟨?_, ?_, ?_⟩
    · simp [echoMessage]
    · simp [toolMessage, echoMessage, assistantIds]
    · exact ih


/-- A completion event contributes its request to `completionsOf`. -/
theorem completionsOf_cons_completion (msgs : List Message)
    (ts : Option (List OpenAITool)) (rest : List Event) :
    completionsOf (Event.completionCall msgs ts :: rest) = (msgs, ts) :: completionsOf rest :=
  rfl

/-- A tool-execution event contributes nothing to `completionsOf`. -/
theorem completionsOf_cons_toolExec (n : String) (a : JValue) (rest : List Event) :
    completionsOf (Event.toolExec n a :: rest) = completionsOf rest :=
  rfl

/-- A completion event contributes nothing to `toolExecsOf`. -/
theorem toolExecsOf_cons_completion (msgs : List Message)
    (ts : Option (List OpenAITool)) (rest : List Event) :
    toolExecsOf (Event.completionCall msgs ts :: rest) = toolExecsOf rest :=
  rfl

/-- A tool-execution event contributes its name and arguments to
`toolExecsOf`. -/
theorem toolExecsOf_cons_toolExec (n : String) (a : JValue) (rest : List Event) :
    toolExecsOf (Event.toolExec n a :: rest) = (n, a) :: toolExecsOf rest :=
  rfl

/-! ## Concrete fixtures (a catalog, a client state, and fake collaborators,
for exercising the theorems on closed inputs) -/

/-- The `greet` tool's input schema, as the server would advertise it. -/
def greetSchema : JValue :=
  JValue.jobj [("type", JValue.jstr "object"),
    ("properties", JValue.jobj [("name", JValue.jobj [("type", JValue.jstr "string")])])]

/-- The `calculate` tool's input schema, as the server would advertise it. -/
def calcSchema : JValue :=
  JValue.jobj [("type", JValue.jstr "object"),
    ("properties", JValue.jobj [
      ("operation", JValue.jobj [("type", JValue.jstr "string")]),
      ("a", JValue.jobj [("type", JValue.jstr "number")]),
      ("b", JValue.jobj [("type", JValue.jstr "number")])])]

/-- Descriptor of the server's `greet` tool. -/
def greetTool : ToolDescriptor :=
  { name := "greet", description := "Greet a person by name.", inputSchema := greetSchema }

/-- Descriptor of the server's `calculate` tool. -/
def calcTool : ToolDescriptor :=
  { name := "calculate", description := "Perform a basic calculation.", inputSchema := calcSchema }

/-- A connected client with a key and the two server tools listed. -/
def demoState : ClientState :=
  { session := true, apiKey := some "sk-demo", available_tools := [greetTool, calcTool] }

/-- A requested `calculate` call adding 2 and 3. -/
def addCall : ToolCall :=
  { id := "call_1"
    function :=
      { name := "calculate"
        arguments := JValue.jobj [("operation", JValue.jstr "add"),
          ("a", JValue.jnum 2), ("b", JValue.jnum 3)] } }

/-- A requested `greet` call. -/
def greetCall : ToolCall :=
  { id := "call_2"
    function := { name := "greet", arguments := JValue.jobj [("name", JValue.jstr "Ada")] } }

/-- Fake collaborators: the first completion requests the single `add` call,
the session answers `5.0`, the final completion reads the result off. -/
def singleCallOracle : Oracle :=
  { complete1 := fun _ _ => { content := some "Let me compute.", tool_calls := [addCall] }
    complete2 := fun _ => { content := some "The answer is 5.", tool_calls := [] }
    callTool := fun _ _ => .ok "5.0" }

/-- Fake collaborators: the first completion requests two calls in order. -/
def twoCallOracle : Oracle :=
  { complete1 := fun _ _ => { content := none, tool_calls := [addCall, greetCall] }
    complete2 := fun _ => { content := some "Done.", tool_calls := [] }
    callTool := fun name _ => if name = "greet" then .ok "Hello, Ada!" else .ok "5.0" }

/-- Fake collaborators: the first completion answers directly, no tool call. -/
def noToolOracle : Oracle :=
  { complete1 := fun _ _ => { content := some "Just chatting.", tool_calls := [] }
    complete2 := fun _ => { content := some "unused", tool_calls := [] }
    callTool := fun _ _ => .error "unused" }

/-- Fake collaborators: two calls requested, every execution raises. -/
def failingOracle : Oracle :=
  { complete1 := fun _ _ => { content := some "Trying.", tool_calls := [addCall, greetCall] }
    complete2 := fun _ => { content := some "unused", tool_calls := [] }
    callTool := fun _ _ => .error "Cannot divide by zero" }

/-! ## Claim theorems -/

/-- C2: for every descriptor list with pairwise-distinct names, the catalog
transform (a pure function) preserves length and order, and the i-th output
is exactly `{type: "function", function: {name, description,
parameters}}` built from the i-th descriptor's name, description and
inputSchema. -/
theorem toolCatalog_roundtrip (tools : List ToolDescriptor)
    (_hnames : (tools.map ToolDescriptor.name).Nodup) :
    (tools.map toOpenAITool).length = tools.length ∧
    ∀ (i : ℕ) (td : ToolDescriptor), tools[i]? = some td →
      (tools.map toOpenAITool)[i]? =
        some { type := "function"
               function := { name := td.name, description := td.description,
                             parameters := td.inputSchema } } := by
  refine ⟨List.length_map _ _, ?_⟩
  intro i td h
  rw [List.getElem?_map, h]
  rfl

/-- C2 witness: the round trip evaluated on the two-tool catalog. -/
theorem toolCatalog_roundtrip_example :
    ([greetTool, calcTool].map toOpenAITool).length = 2 ∧
    ([greetTool, calcTool].map toOpenAITool)[0]? =
      some { type := "function"
             function := { name := "greet", description := "Greet a person by name.",
                           parameters := greetSchema } } := by
  have h := toolCatalog_roundtrip [greetTool, calcTool] (by decide)
  exact ⟨h.1, h.2 0 greetTool rfl⟩

/-- C7: `process_query` checks its preconditions before any external call:
without a session it raises the not-connected error, and with a missing or
empty `OPENAI_API_KEY` it returns the explanatory string; in both cases the
trace is empty, so neither the completion service nor any tool was
contacted. -/
theorem preconditions_before_network (st : ClientState) (o : Oracle) (query : String) :
    (st.session = false →
      process_query st o query = ([], .error "Not connected to server")) ∧
    (st.session = true → st.apiKey.getD "" = "" →
      process_query st o query = ([], .ok apiKeyErrorText)) :=
  ⟨fun hs => process_query_not_connected st o query hs,
   fun hs hk => process_query_no_key st o query hs hk⟩

/-- C7 witness: the two guard branches evaluated on concrete states (one with
no session, one with an empty key configured). -/
theorem preconditions_before_network_example :
    process_query { session := false, apiKey := some "sk", available_tools := [] }
        noToolOracle "hi" = ([], .error "Not connected to server") ∧
    process_query { session := true, apiKey := some "", available_tools := [] }
        noToolOracle "hi" = ([], .ok apiKeyErrorText) :=
  ⟨(preconditions_before_network
      { session := false, apiKey := some "sk", available_tools := [] } noToolOracle "hi").1 rfl,
   (preconditions_before_network
      { session := true, apiKey := some "", available_tools := [] } noToolOracle "hi").2 rfl rfl⟩

/-- C8: `calculate` returns `a+b`, `a-b`, `a*b`, `a/b` for the four known
operations, raises the structured division-by-zero error exactly when the
divisor is zero (never silently returning a number), and raises the
unknown-operation error for every other operation name. -/
theorem calculate_domain_errors (a b : ℚ) :
    calculate "add" a b = .ok (a + b) ∧
    calculate "subtract" a b = .ok (a - b) ∧
    calculate "multiply" a b = .ok (a * b) ∧
    (b = 0 → calculate "divide" a b = .error "Cannot divide by zero") ∧
    (b ≠ 0 → calculate "divide" a b = .ok (a / b)) ∧
    (∀ op : String, op ∉ (["add", "subtract", "multiply", "divide"] : List String) →
      calculate op a b = .error ("Unknown operation: " ++ op)) := by
  refine ⟨by simp [calculate], by simp [calculate], by simp [calculate], ?_, ?_, ?_⟩
  · intro hb
    simp [calculate, hb]
  · intro hb
    simp [calculate, hb]
  · intro op hop
    simp only [List.mem_cons, List.mem_singleton, List.not_mem_nil, not_or] at hop
    simp [calculate, hop.1, hop.2.1, hop.2.2.1, hop.2.2.2.1]

/-- C8 witness: division evaluated away from zero, at zero, and an unknown
operation. -/
theorem calculate_domain_errors_example :
    calculate "divide" 6 2 = .ok 3 ∧
    calculate "divide" 5 0 = .error "Cannot divide by zero" ∧
    calculate "modulo" 1 2 = .error "Unknown operation: modulo" := by
  refine ⟨?_, ?_, ?_⟩
  · rw [(calculate_domain_errors 6 2).2.2.2.2.1 (by norm_num)]
    norm_num
  · exact (calculate_domain_errors 5 0).2.2.2.1 rfl
  · exact (calculate_domain_errors 1 2).2.2.2.2.2 "modulo" (by decide)

/-- C10: the two `greet` tool definitions registered by the server are
extensionally equal: each returns `"Hello, "` ++ name ++ `"!"`, so the
duplicate registration is behavior-preserving. -/
theorem greet_duplicates_agree (name : String) : greetFirst name = greetSecond name :=
  rfl


/-- C1 counterexample: a query whose first completion response carries
exactly one tool call, where `process_query` does perform two completion
requests and one tool execution, but the transcript passed to the second
completion request has four messages — system, user, the synthetic assistant
echo, tool — not the five claimed: the assistant message returned by the
model is never appended to the transcript (only its text is captured). -/
theorem second_transcript_has_four_messages :
    (singleCallOracle.complete1 [systemMessage, userMessage "add 2 and 3"]
      (demoState.available_tools.map toOpenAITool)).tool_calls.length = 1 ∧
    (completionsOf (process_query demoState singleCallOracle "add 2 and 3").1).length = 2 ∧
    (toolExecsOf (process_query demoState singleCallOracle "add 2 and 3").1).length = 1 ∧
    ((completionsOf (process_query demoState singleCallOracle "add 2 and 3").1).getLast?.map
      (fun p => p.1.map (fun m => m.role))) = some ["system", "user", "assistant", "tool"] ∧
    ¬ ((completionsOf (process_query demoState singleCallOracle "add 2 and 3").1).getLast?.map
      (fun p => p.1.length)) = some 5 := by
  refine ⟨rfl, rfl, rfl, rfl, ?_⟩
  intro h
  have h5 := Option.some.injEq 4 5 ▸ (rfl.trans h :
    (some 4 : Option ℕ) = some 5)
  simp at h5

/-- C1 (amended): for a first completion response carrying exactly one tool
call whose execution succeeds, `process_query` performs exactly two
completion requests and exactly one tool execution, and the transcript
passed to the second completion request contains, in order, four messages:
system, user, the synthetic assistant message echoing the single tool call,
and the tool-role message carrying the result; the model's assistant message
is not itself appended — its text only contributes to the returned answer. -/
theorem process_single_tool_call (st : ClientState) (o : Oracle) (query : String)
    (tc : ToolCall) (c : String)
    (hs : st.session = true) (hk : st.apiKey.getD "" ≠ "")
    (hm : (o.complete1 [systemMessage, userMessage query]
            (st.available_tools.map toOpenAITool)).tool_calls = [tc])
    (hc : o.callTool tc.function.name tc.function.arguments = .ok c) :
    process_query st o query =
      ([Event.completionCall [systemMessage, userMessage query]
          (some (st.available_tools.map toOpenAITool)),
        toolExecEvent tc,
        Event.completionCall
          [systemMessage, userMessage query, echoMessage tc, toolMessage tc.id c] none],
       .ok (joinNonEmpty
        [(o.complete1 [systemMessage, userMessage query]
            (st.available_tools.map toOpenAITool)).content.getD "",
         (o.complete2
            [systemMessage, userMessage query, echoMessage tc, toolMessage tc.id c]).content.getD ""])) := by
  have hres : toolResultContent o tc = c := by
    unfold toolResultContent
    rw [hc]
  have hok := process_query_with_tools_ok st o query [tc] hs hk hm (by simp)
    (by
      intro x hx
      rw [List.mem_singleton] at hx
      subst hx
      rw [hc]
      rfl)
  rw [hok]
  simp [toolPairMessages, hres]

/-- C1 witness: the amended statement evaluated on the concrete single-call
run. -/
theorem process_single_tool_call_example :
    process_query demoState singleCallOracle "add 2 and 3" =
      ([Event.completionCall [systemMessage, userMessage "add 2 and 3"]
          (some (demoState.available_tools.map toOpenAITool)),
        toolExecEvent addCall,
        Event.completionCall
          [systemMessage, userMessage "add 2 and 3", echoMessage addCall,
           toolMessage addCall.id "5.0"] none],
       .ok (joinNonEmpty ["Let me compute.", "The answer is 5."])) :=
  process_single_tool_call demoState singleCallOracle "add 2 and 3" addCall "5.0"
    rfl (by decide) rfl rfl

/-- C3: when the first completion response carries no tool calls,
`process_query` performs exactly one completion request, executes no tool,
and returns the assistant text verbatim (the empty string when the content
was absent). -/
theorem process_without_tool_calls (st : ClientState) (o : Oracle) (query : String)
    (hs : st.session = true) (hk : st.apiKey.getD "" ≠ "")
    (hm : (o.complete1 [systemMessage, userMessage query]
            (st.available_tools.map toOpenAITool)).tool_calls = []) :
    (completionsOf (process_query st o query).1).length = 1 ∧
    toolExecsOf (process_query st o query).1 = [] ∧
    (process_query st o query).2 =
      .ok ((o.complete1 [systemMessage, userMessage query]
            (st.available_tools.map toOpenAITool)).content.getD "") := by
  rw [process_query_no_tools st o query hs hk hm]
  exact ⟨rfl, rfl, rfl⟩

/-- C3 witness: the no-tool run evaluated on concrete collaborators. -/
theorem process_without_tool_calls_example :
    (completionsOf (process_query demoState noToolOracle "hello").1).length = 1 ∧
    toolExecsOf (process_query demoState noToolOracle "hello").1 = [] ∧
    (process_query demoState noToolOracle "hello").2 = .ok "Just chatting." :=
  process_without_tool_calls demoState noToolOracle "hello" rfl (by decide) rfl

/-- C6: when a requested tool call fails (all calls before it succeeding),
the error propagates to the caller of `process_query` and the final
completion request is not made: the only completion request in the trace is
the first one. -/
theorem tool_failure_aborts_before_final (st : ClientState) (o : Oracle) (query : String)
    (pre : List ToolCall) (bad : ToolCall) (post : List ToolCall) (e : String)
    (hs : st.session = true) (hk : st.apiKey.getD "" ≠ "")
    (hm : (o.complete1 [systemMessage, userMessage query]
            (st.available_tools.map toOpenAITool)).tool_calls = pre ++ bad :: post)
    (hpre : ∀ tc ∈ pre, (o.callTool tc.function.name tc.function.arguments).isOk = true)
    (hbad : o.callTool bad.function.name bad.function.arguments = .error e) :
    (process_query st o query).2 = .error e ∧
    completionsOf (process_query st o query).1 =
      [([systemMessage, userMessage query],
        some (st.available_tools.map toOpenAITool))] := by
  rw [process_query_with_tools_err st o query pre bad post e hs hk hm hpre hbad]
  refine ⟨rfl, ?_⟩
  rw [completionsOf_cons_completion, completionsOf_append, completionsOf_toolExecEvents]
  rfl

/-- C6 witness: the first of two requested calls fails; the run raises and
only the first completion request appears in the trace. -/
theorem tool_failure_aborts_before_final_example :
    (process_query demoState failingOracle "divide 1 by 0").2 =
      .error "Cannot divide by zero" ∧
    completionsOf (process_query demoState failingOracle "divide 1 by 0").1 =
      [([systemMessage, userMessage "divide 1 by 0"],
        some (demoState.available_tools.map toOpenAITool))] :=
  tool_failure_aborts_before_final demoState failingOracle "divide 1 by 0"
    [] addCall [greetCall] "Cannot divide by zero" rfl (by decide) rfl
    (by intro tc h; cases h) rfl


/-- The empty trace holds no completion request. -/
theorem completionsOf_nil : completionsOf [] = [] := rfl

/-- The empty trace holds no tool execution. -/
theorem toolExecsOf_nil : toolExecsOf [] = [] := rfl

/-- A single completion event's request list. -/
theorem completionsOf_single_completion (msgs : List Message)
    (ts : Option (List OpenAITool)) :
    completionsOf [Event.completionCall msgs ts] = [(msgs, ts)] := rfl

/-- A single completion event holds no tool execution. -/
theorem toolExecsOf_single_completion (msgs : List Message)
    (ts : Option (List OpenAITool)) :
    toolExecsOf [Event.completionCall msgs ts] = [] := rfl

/-- The observer `completionsOf` is monotone with respect to trace prefixes. -/
theorem completionsOf_isPrefix {xs ys : List Event} (h : xs <+: ys) :
    completionsOf xs <+: completionsOf ys := by
  unfold completionsOf
  exact h.filterMap _

/-- The observer `toolExecsOf` is monotone with respect to trace prefixes. -/
theorem toolExecsOf_isPrefix {xs ys : List Event} (h : xs <+: ys) :
    toolExecsOf xs <+: toolExecsOf ys := by
  unfold toolExecsOf
  exact h.filterMap _

/-- C4: in every normal run, the final completion request appears exactly
when at least one tool call was executed, that final request carries no tool
specs, and the run performs at most two completion requests (hence at most
one tool-execution round). -/
theorem final_completion_iff_tool_executed (st : ClientState) (o : Oracle) (query : String)
    (trace : List Event) (r : String)
    (h : process_query st o query = (trace, .ok r)) :
    (completionsOf trace).length ≤ 2 ∧
    (toolExecsOf trace = [] →
      (completionsOf trace).length ≤ 1 ∧ ∀ p ∈ completionsOf trace, p.2 ≠ none) ∧
    (toolExecsOf trace ≠ [] →
      ∃ m1 ts m2, completionsOf trace = [(m1, some ts), (m2, none)]) := by
  rcases process_query_ok_shapes st o query trace r h with h1 | ⟨msgs, ts, h1⟩ |
    ⟨msgs, ts, calls, m2, hne, h1⟩
  · subst h1
    refine ⟨by simp [completionsOf_nil], fun _ => ⟨by simp [completionsOf_nil], ?_⟩,
      fun hx => absurd toolExecsOf_nil hx⟩
    intro p hp
    rw [completionsOf_nil] at hp
    exact absurd hp (List.not_mem_nil p)
  · subst h1
    refine ⟨by simp [completionsOf_single_completion], fun _ => ⟨?_, ?_⟩,
      fun hx => absurd (toolExecsOf_single_completion msgs (some ts)) hx⟩
    · simp [completionsOf_single_completion]
    · intro p hp
      rw [completionsOf_single_completion] at hp
      rw [List.mem_singleton.mp hp]
      simp
  · subst h1
    have hce : completionsOf
        (Event.completionCall msgs (some ts) :: calls.map toolExecEvent
          ++ [Event.completionCall m2 none]) = [(msgs, some ts), (m2, none)] := by
      simp only [completionsOf_append, completionsOf_cons_completion,
        completionsOf_toolExecEvents, completionsOf_single_completion, completionsOf_nil,
        List.cons_append, List.nil_append, List.append_nil]
    have hte : toolExecsOf
        (Event.completionCall msgs (some ts) :: calls.map toolExecEvent
          ++ [Event.completionCall m2 none]) =
        calls.map (fun tc => (tc.function.name, tc.function.arguments)) := by
      simp only [toolExecsOf_append, toolExecsOf_cons_completion,
        toolExecsOf_toolExecEvents, toolExecsOf_single_completion, toolExecsOf_nil,
        List.cons_append, List.nil_append, List.append_nil]
    refine ⟨by rw [hce]; simp, ?_, ?_⟩
    · intro hx
      rw [hte] at hx
      exact absurd (by simpa using hx) hne
    · intro _
      exact ⟨msgs, ts, m2, hce⟩

/-- C4 witness: on the concrete single-call run (a normal return), the trace
holds the first completion request with specs and the final one without. -/
theorem final_completion_iff_tool_executed_example :
    ∃ m1 ts m2,
      completionsOf (process_query demoState singleCallOracle "add 2 and 3").1 =
        [(m1, some ts), (m2, none)] := by
  have h := final_completion_iff_tool_executed demoState singleCallOracle "add 2 and 3"
    (process_query demoState singleCallOracle "add 2 and 3").1
    "Let me compute.\nThe answer is 5." rfl
  refine h.2.2 ?_
  intro hx
  exact absurd (congrArg List.length hx) (by decide)

/-- C5: tool calls are executed strictly in the order the assistant response
requested them, one at a time: the executions performed are always an
order-preserving prefix of the requested list, and on a normal return they
are exactly the requested list. -/
theorem tool_calls_executed_in_order (st : ClientState) (o : Oracle) (query : String)
    (hs : st.session = true) (hk : st.apiKey.getD "" ≠ "") :
    toolExecsOf (process_query st o query).1 <+:
      (o.complete1 [systemMessage, userMessage query]
        (st.available_tools.map toOpenAITool)).tool_calls.map
        (fun tc => (tc.function.name, tc.function.arguments)) ∧
    ∀ (trace : List Event) (r : String), process_query st o query = (trace, .ok r) →
      toolExecsOf trace =
        (o.complete1 [systemMessage, userMessage query]
          (st.available_tools.map toOpenAITool)).tool_calls.map
          (fun tc => (tc.function.name, tc.function.arguments)) := by
  constructor
  · by_cases hmt : (o.complete1 [systemMessage, userMessage query]
        (st.available_tools.map toOpenAITool)).tool_calls = []
    · rw [process_query_no_tools st o query hs hk hmt,
        toolExecsOf_single_completion]
      exact List.nil_prefix
    · rcases heq : execToolCalls o
          ((o.complete1 [systemMessage, userMessage query]
            (st.available_tools.map toOpenAITool)).tool_calls)
          [systemMessage, userMessage query] [] with ⟨evs, out⟩
      cases out with
      | error e =>
        rw [process_query_err_raw st o query evs e hs hk hmt heq,
          toolExecsOf_cons_completion]
        have hp := execToolCalls_events_isPrefix o
          ((o.complete1 [systemMessage, userMessage query]
            (st.available_tools.map toOpenAITool)).tool_calls)
          [systemMessage, userMessage query] []
        rw [heq] at hp
        have hp2 := toolExecsOf_isPrefix hp
        rwa [toolExecsOf_toolExecEvents] at hp2
      | ok mr =>
        have hall := (execToolCalls_ok_inv o _ _ _ evs mr heq).2
        rw [process_query_with_tools_ok st o query _ hs hk rfl hmt hall]
        simp only [toolExecsOf_append, toolExecsOf_cons_completion,
          toolExecsOf_toolExecEvents, toolExecsOf_single_completion, toolExecsOf_nil,
          List.cons_append, List.nil_append, List.append_nil]
        exact List.prefix_refl _
  · intro trace r h
    rcases process_query_ok_inv st o query trace r hs hk h with ⟨hmt, htr⟩ | ⟨hne, hall, htr⟩
    · subst htr
      rw [hmt, toolExecsOf_single_completion]
      rfl
    · subst htr
      simp only [toolExecsOf_append, toolExecsOf_cons_completion,
        toolExecsOf_toolExecEvents, toolExecsOf_single_completion, toolExecsOf_nil,
        List.cons_append, List.nil_append, List.append_nil]

/-- C5 witness: two requested calls execute in exactly the requested order on
the concrete two-call run. -/
theorem tool_calls_executed_in_order_example :
    toolExecsOf (process_query demoState twoCallOracle "add 2 and 3 then greet Ada").1 =
      [("calculate", addCall.function.arguments), ("greet", greetCall.function.arguments)] := by
  have h := (tool_calls_executed_in_order demoState twoCallOracle
      "add 2 and 3 then greet Ada" rfl (by decide)).2
    (process_query demoState twoCallOracle "add 2 and 3 then greet Ada").1 "Done." rfl
  rw [h]
  rfl

/-- C9: in every transcript `process_query` passes to the completion
service, and after every append (i.e. on every prefix of such a transcript),
each tool-role message's `tool_call_id` matches a tool-call id exposed by an
assistant message strictly earlier in that transcript. -/
theorem transcript_ids_invariant (st : ClientState) (o : Oracle) (query : String) :
    ∀ p ∈ completionsOf (process_query st o query).1, ∀ n : ℕ,
      toolIdsOk (p.1.take n) = true := by
  have hseed : toolIdsOk [systemMessage, userMessage query] = true := by
    apply toolIdsOkFrom_no_tool_role
    intro m hm
    rcases List.mem_cons.mp hm with h1 | h1
    · subst h1
      simp [systemMessage]
    · rw [List.mem_singleton.mp h1]
      simp [userMessage]
  intro p hp n
  cases hs : st.session with
  | false =>
    rw [process_query_not_connected st o query hs] at hp
    exact absurd hp (List.not_mem_nil p)
  | true =>
    by_cases hk : st.apiKey.getD "" = ""
    · rw [process_query_no_key st o query hs hk] at hp
      exact absurd hp (List.not_mem_nil p)
    · by_cases hmt : (o.complete1 [systemMessage, userMessage query]
          (st.available_tools.map toOpenAITool)).tool_calls = []
      · rw [process_query_no_tools st o query hs hk hmt] at hp
        rw [List.mem_singleton.mp hp]
        exact toolIdsOkFrom_take _ _ _ hseed
      · rcases heq : execToolCalls o
            ((o.complete1 [systemMessage, userMessage query]
              (st.available_tools.map toOpenAITool)).tool_calls)
            [systemMessage, userMessage query] [] with ⟨evs, out⟩
        cases out with
        | error e =>
          rw [process_query_err_raw st o query evs e hs hk hmt heq,
            completionsOf_cons_completion] at hp
          have hpre := execToolCalls_events_isPrefix o
            ((o.complete1 [systemMessage, userMessage query]
              (st.available_tools.map toOpenAITool)).tool_calls)
            [systemMessage, userMessage query] []
          rw [heq] at hpre
          have hnil : completionsOf evs = [] := by
            have h2 := completionsOf_isPrefix hpre
            rw [completionsOf_toolExecEvents] at h2
            exact List.prefix_nil.mp h2
          rw [hnil] at hp
          rw [List.mem_singleton.mp hp]
          exact toolIdsOkFrom_take _ _ _ hseed
        | ok mr =>
          have hall := (execToolCalls_ok_inv o _ _ _ evs mr heq).2
          rw [process_query_with_tools_ok st o query _ hs hk rfl hmt hall] at hp
          simp only [completionsOf_append, completionsOf_cons_completion,
            completionsOf_toolExecEvents, completionsOf_single_completion, completionsOf_nil,
            List.cons_append, List.nil_append, List.append_nil] at hp
          rcases List.mem_cons.mp hp with hp2 | hp2
          · rw [hp2]
            exact toolIdsOkFrom_take _ _ _ hseed
          · rw [List.mem_singleton.mp hp2]
            have hfull : toolIdsOk ([systemMessage, userMessage query]
                ++ ((o.complete1 [systemMessage, userMessage query]
                    (st.available_tools.map toOpenAITool)).tool_calls).flatMap
                  (toolPairMessages o)) = true := by
              unfold toolIdsOk
              rw [toolIdsOkFrom_append, Bool.and_eq_true]
              exact ⟨hseed, toolIdsOkFrom_toolPairs o _ _⟩
            exact toolIdsOkFrom_take _ _ _ hfull

/-- C9 witness: the invariant evaluated on the whole four-message transcript
passed to the second completion request of the concrete single-call run. -/
theorem transcript_ids_invariant_example :
    toolIdsOk ([systemMessage, userMessage "add 2 and 3", echoMessage addCall,
      toolMessage addCall.id "5.0"].take 4) = true := by
  have hmem : ([systemMessage, userMessage "add 2 and 3", echoMessage addCall,
        toolMessage addCall.id "5.0"], (none : Option (List OpenAITool))) ∈
      completionsOf (process_query demoState singleCallOracle "add 2 and 3").1 := by
    rw [show completionsOf (process_query demoState singleCallOracle "add 2 and 3").1 =
      [([systemMessage, userMessage "add 2 and 3"],
        some (demoState.available_tools.map toOpenAITool)),
       ([systemMessage, userMessage "add 2 and 3", echoMessage addCall,
        toolMessage addCall.id "5.0"], none)] from rfl]
    exact List.mem_cons_of_mem _ (List.mem_cons_self _ _)
  exact transcript_ids_invariant demoState singleCallOracle "add 2 and 3" _ hmem 4

end MCP
